import Mathlib

/-!
Verification of the STT and TOT table codecs of TSDuck
(`src/libtsduck/dtv/tables/tsSTT.cpp`, `src/libtsduck/dtv/tables/tsTOT.cpp`).

The two codec files are embedded faithfully.  Their collaborators
(`PSIBuffer`, `Time`/MJD arithmetic, `DescriptorList`,
`LocalTimeOffsetDescriptor`) are not part of the two source files; they are
modelled from the specification's description of those interfaces
("bit-cursor buffer", "tagged self-length-delimited descriptor",
"MJD day count + time-of-day", "up to 19 regions per descriptor",
"partial-fit write variant that truncates rather than erroring").
Machine integers are modelled as `Nat` with explicit `% 256`-style masking
where the byte-oriented buffer operations mask.
-/

/-! ### Read buffer (modelled from the spec: bit-cursor over a byte sequence) -/

/-- Modelled from the spec: the read side of the bit-cursor buffer
(`PSIBuffer`): the remaining bytes plus a sticky error flag that is set on
any overrun. -/
structure RBuf where
  data : List Nat
  err : Bool
deriving DecidableEq, Repr

/-- Modelled from the spec: `getUInt8` — read one byte, advance; on overrun
set the error flag and return 0.  After an error every read returns 0 and
does not advance. -/
def getUInt8 (b : RBuf) : Nat × RBuf :=
  if b.err then (0, b)
  else
    match b.data with
    | [] => (0, ⟨[], true⟩)
    | x :: rest => (x, ⟨rest, false⟩)

/-- Modelled from the spec: `getUInt32` — four big-endian byte reads. -/
def getUInt32 (b : RBuf) : Nat × RBuf :=
  let (b0, s0) := getUInt8 b
  let (b1, s1) := getUInt8 s0
  let (b2, s2) := getUInt8 s1
  let (b3, s3) := getUInt8 s2
  (((b0 * 256 + b1) * 256 + b2) * 256 + b3, s3)

/-! ### Descriptors (modelled from the spec: tagged, self-length-delimited) -/

/-- Modelled from the spec: one binary descriptor — a tag byte and a payload
whose length is carried in a length byte on the wire. -/
structure WireDesc where
  tag : Nat
  body : List Nat
deriving DecidableEq, Repr

/-- Wire form of one descriptor: tag byte, length byte, payload. -/
def descBytes (d : WireDesc) : List Nat :=
  d.tag % 256 :: d.body.length % 256 :: d.body

/-- Serialized size in bytes of a descriptor list. -/
def descListSize (ds : List WireDesc) : Nat :=
  (ds.map (fun d => 2 + d.body.length)).sum

/-- Modelled from the spec: parse a byte region as a descriptor loop: read
tag and length bytes, fail (`none` = buffer error flag) when the length
byte is truncated or a declared length exceeds the remaining bytes.  The
`fuel` argument makes the recursion structural; callers pass the byte
count, which always suffices since each step consumes at least two bytes. -/
def descLoopF : Nat → List Nat → Option (List WireDesc)
  | _, [] => some []
  | 0, _ :: _ => none
  | _ + 1, [_] => none
  | fuel + 1, t :: l :: rest =>
    if l ≤ rest.length then
      match descLoopF fuel (rest.drop l) with
      | some ds => some (⟨t, rest.take l⟩ :: ds)
      | none => none
    else none

/-- Parse a whole byte region as a descriptor loop. -/
def descLoop (bs : List Nat) : Option (List WireDesc) := descLoopF bs.length bs

/-- Modelled from the spec: `getDescriptorList` — parse all remaining bytes
as descriptors; on a malformed descriptor set the error flag. -/
def getDescriptorList (b : RBuf) : List WireDesc × RBuf :=
  if b.err then ([], b)
  else
    match descLoop b.data with
    | some ds => (ds, ⟨[], false⟩)
    | none => ([], ⟨b.data, true⟩)

/-- Modelled from the spec: the "partial fit" write policy
(`putPartialDescriptorList`): serialize the longest prefix of whole
descriptors that fits in `cap` bytes, silently dropping the rest. -/
def fitDescs (cap : Nat) : List WireDesc → List WireDesc
  | [] => []
  | d :: rest =>
    if 2 + d.body.length ≤ cap then d :: fitDescs (cap - (2 + d.body.length)) rest
    else []

/-! ### STT record and codec (`tsSTT.cpp`) -/

/-- The STT table content (`ts::STT` data members). -/
structure STTRecord where
  protocol_version : Nat
  system_time : Nat
  GPS_UTC_offset : Nat
  DS_status : Bool
  DS_day_of_month : Nat
  DS_hour : Nat
  descs : List WireDesc
deriving DecidableEq, Repr

/-- `ts::STT::serializePayload`: protocol version, 32-bit system time,
GPS-UTC offset, then one byte holding the DST status bit, two reserved
bits written as ones (`putBits(0xFF, 2)`), and the 5-bit day of month;
then the DST hour and the partial-fit descriptor list (`cap` is the byte
capacity left in the single allowed section). -/
def serializePayloadSTT (cap : Nat) (r : STTRecord) : List Nat :=
  r.protocol_version % 256 ::
  r.system_time / 16777216 % 256 :: r.system_time / 65536 % 256 ::
  r.system_time / 256 % 256 :: r.system_time % 256 ::
  r.GPS_UTC_offset % 256 ::
  ((if r.DS_status then 128 else 0) + 96 + r.DS_day_of_month % 32) ::
  r.DS_hour % 256 ::
  ((fitDescs cap r.descs).map descBytes).flatten

/-- `ts::STT::deserializePayload`: the reads in source order.  The byte
holding `DS_status`/reserved/`DS_day_of_month` models `getBit`,
`skipBits(2)` and `getBits<uint8_t>(5)` on a byte-aligned buffer,
MSB-first. -/
def deserializePayloadSTT (b : RBuf) : STTRecord × RBuf :=
  let (pv, b1) := getUInt8 b
  let (st, b2) := getUInt32 b1
  let (gps, b3) := getUInt8 b2
  let (dsb, b4) := getUInt8 b3
  let (hour, b5) := getUInt8 b4
  let (ds, b6) := getDescriptorList b5
  (⟨pv, st, gps, dsb / 128 % 2 == 1, dsb % 32, hour, ds⟩, b6)

/-- `ts::STT::STT(DuckContext&, const Section&)`: deserialize the payload
and invalidate the record when the buffer flagged an error or bytes remain
unconsumed. -/
def sttFromSection (bs : List Nat) : Option STTRecord :=
  let p := deserializePayloadSTT ⟨bs, false⟩
  if p.2.err = true ∨ p.2.data ≠ [] then none else some p.1

/-- Modelled from the spec: seconds between the Unix epoch
(1970-01-01) and the GPS epoch (1980-01-06): 3657 days. -/
def unixEpochToGPS : Nat := 315964800

/-- Modelled from the spec: an absolute timestamp — either the sentinel
"epoch/unset" value (`Time::Epoch`) or a count of seconds since the Unix
epoch (`Time::UnixTimeToUTC`). -/
inductive TsTime where
  | epoch
  | fromUnix (s : Int)
deriving DecidableEq, Repr

/-- `ts::STT::utcTime`: 0 means unset; otherwise add the Unix-to-GPS epoch
constant and subtract the GPS-UTC leap offset. -/
def utcTimeSTT (r : STTRecord) : TsTime :=
  if r.system_time = 0 then TsTime.epoch
  else TsTime.fromUnix ((r.system_time : Int) + (unixEpochToGPS : Int) - (r.GPS_UTC_offset : Int))

/-! ### MJD time field and JST conversion (modelled from the spec) -/

def secondsPerDay : Nat := 86400

/-- Modelled from the spec: the Unix epoch expressed as an MJD day count. -/
def mjdUnixEpochDays : Nat := 40587

/-- Two-digit binary-coded-decimal encoding of a value below 100. -/
def toBCD (n : Nat) : Nat := n / 10 * 16 + n % 10

/-- Decode a two-digit BCD byte. -/
def fromBCD (n : Nat) : Nat := n / 16 * 10 + n % 16

/-- Modelled from the spec: `putFullMJD` — the 5-byte MJD wire field:
16-bit day count, then BCD hours, minutes, seconds.  `t` counts seconds
since the Unix epoch (negative values reach back before 1970). -/
def putFullMJD (t : Int) : List Nat :=
  let s := (t + (mjdUnixEpochDays * secondsPerDay : Nat)).toNat
  let day := s / secondsPerDay
  let sod := s % secondsPerDay
  [day / 256 % 256, day % 256, toBCD (sod / 3600), toBCD (sod % 3600 / 60), toBCD (sod % 60)]

/-- Value of a 5-byte MJD field, as seconds since the Unix epoch. -/
def mjdValue (b0 b1 b2 b3 b4 : Nat) : Int :=
  (((b0 * 256 + b1) * secondsPerDay + fromBCD b2 * 3600 + fromBCD b3 * 60 + fromBCD b4 : Nat) : Int)
    - ((mjdUnixEpochDays * secondsPerDay : Nat) : Int)

/-- Modelled from the spec: `getFullMJD` — read the 5-byte MJD field. -/
def getFullMJD (b : RBuf) : Int × RBuf :=
  let (b0, s0) := getUInt8 b
  let (b1, s1) := getUInt8 s0
  let (b2, s2) := getUInt8 s1
  let (b3, s3) := getUInt8 s2
  let (b4, s4) := getUInt8 s3
  (mjdValue b0 b1 b2 b3 b4, s4)

/-- A timestamp representable in the MJD wire field: inside the 16-bit day
range counted from the MJD epoch. -/
def MJDValid (t : Int) : Prop :=
  0 ≤ t + ((mjdUnixEpochDays * secondsPerDay : Nat) : Int) ∧
  t + ((mjdUnixEpochDays * secondsPerDay : Nat) : Int) < ((65536 * secondsPerDay : Nat) : Int)

/-- Modelled from the spec: `Time::UTCToJST` — JST = UTC + 9h. -/
def UTCToJST (t : Int) : Int := t + 9 * 3600

/-- Modelled from the spec: `Time::JSTToUTC` — UTC = JST − 9h. -/
def JSTToUTC (t : Int) : Int := t - 9 * 3600

/-! ### Regions and the local-time-offset descriptor (modelled from the spec) -/

/-- Modelled from the spec: one `RegionOffset` entry of a
local-time-offset descriptor: country code (3 bytes), region identifier
(6 bits), offset polarity and offset in minutes, and the transition-time
pair (next change instant, next offset). -/
structure Region where
  country_code : Nat
  region_id : Nat
  polarity : Bool
  time_offset : Nat
  next_change : Nat
  next_offset : Nat
deriving DecidableEq, Repr

/-- Modelled from the spec: the fixed 13-byte wire form of one region
entry (19 entries fill at most 247 of the 255 possible payload bytes). -/
def regionBytes (r : Region) : List Nat :=
  [r.country_code / 65536 % 256, r.country_code / 256 % 256, r.country_code % 256,
   r.region_id % 64 * 2 + (if r.polarity then 1 else 0),
   r.time_offset / 256 % 256, r.time_offset % 256,
   r.next_change / 4294967296 % 256, r.next_change / 16777216 % 256,
   r.next_change / 65536 % 256, r.next_change / 256 % 256, r.next_change % 256,
   r.next_offset / 256 % 256, r.next_offset % 256]

/-- Decode one 13-byte region entry. -/
def regionOfBytes (bs : List Nat) : Region :=
  { country_code := (bs.getD 0 0 * 256 + bs.getD 1 0) * 256 + bs.getD 2 0
    region_id := bs.getD 3 0 / 2 % 64
    polarity := bs.getD 3 0 % 2 == 1
    time_offset := bs.getD 4 0 * 256 + bs.getD 5 0
    next_change := (((bs.getD 6 0 * 256 + bs.getD 7 0) * 256 + bs.getD 8 0) * 256
      + bs.getD 9 0) * 256 + bs.getD 10 0
    next_offset := bs.getD 11 0 * 256 + bs.getD 12 0 }

/-- Modelled from the spec: payload of a local-time-offset descriptor — the
region entries back to back. -/
def ltoBody (rs : List Region) : List Nat := (rs.map regionBytes).flatten

/-- Modelled from the spec: decoding of a local-time-offset descriptor
payload; `none` models `LocalTimeOffsetDescriptor::isValid()` being false
(payload not a whole number of region entries).  `fuel` makes the
recursion structural; callers pass the byte count. -/
def ltoParseF : Nat → List Nat → Option (List Region)
  | _, [] => some []
  | 0, _ :: _ => none
  | fuel + 1, b :: bs =>
    if 12 ≤ bs.length then
      match ltoParseF fuel (bs.drop 12) with
      | some rs => some (regionOfBytes (b :: bs.take 12) :: rs)
      | none => none
    else none

/-- Decode a whole local-time-offset descriptor payload. -/
def ltoParseBody (bs : List Nat) : Option (List Region) := ltoParseF bs.length bs

/-- `DID_LOCAL_TIME_OFFSET` (0x58), the tag of the local-time-offset
descriptor. -/
def DID_LOCAL_TIME_OFFSET : Nat := 88

/-- `LocalTimeOffsetDescriptor::MAX_REGION`: at most 19 regions fit in one
descriptor. -/
def MAX_REGION : Nat := 19

/-! ### TOT record and codec (`tsTOT.cpp`) -/

/-- The TOT table content (`ts::TOT` data members): UTC time, the flat
region list and the remaining ("other") descriptors. -/
structure TOTRecord where
  utc_time : Int
  regions : List Region
  descs : List WireDesc
deriving DecidableEq, Repr

/-- The region-chunking loop of `ts::TOT::serializePayload`: push regions
one by one, flushing a descriptor chunk whenever it reaches `MAX_REGION`
entries, and flush the non-empty remainder at the end. -/
def chunkLoop : List Region → List Region → List (List Region)
  | [], acc => if acc.isEmpty then [] else [acc]
  | r :: rest, acc =>
    let acc2 := acc ++ [r]
    if MAX_REGION ≤ acc2.length then acc2 :: chunkLoop rest []
    else chunkLoop rest acc2

/-- The descriptor list built by `ts::TOT::serializePayload`: one
local-time-offset descriptor per region chunk, then the other descriptors
unchanged. -/
def totDescriptorList (r : TOTRecord) : List WireDesc :=
  (chunkLoop r.regions []).map (fun c => ⟨DID_LOCAL_TIME_OFFSET, ltoBody c⟩) ++ r.descs

/-- Modelled from the spec: `putPartialDescriptorListWithLength` — fit as
many whole descriptors as the capacity and the 12-bit length prefix allow
(at most 4095 payload bytes), then write the 16-bit length field (4
reserved bits set to ones, 12 significant bits) followed by the
descriptors. -/
def putPartialWithLength (cap : Nat) (ds : List WireDesc) : List Nat :=
  let taken := fitDescs (min cap 4095) ds
  let body := (taken.map descBytes).flatten
  (240 + body.length / 256 % 16) :: body.length % 256 :: body

/-- `ts::TOT::serializePayload`: write the MJD time field (converted to JST
when the Japan profile is active), then the chunked descriptor list with
its length prefix; `cap` is the byte capacity available for the
descriptor list in the section. -/
def serializePayloadTOT (japan : Bool) (cap : Nat) (r : TOTRecord) : List Nat :=
  putFullMJD (if japan then UTCToJST r.utc_time else r.utc_time) ++
  putPartialWithLength cap (totDescriptorList r)

/-- An entry of a generic `DescriptorList` as seen by
`ts::TOT::addDescriptors`: a null pointer, an invalid descriptor, or a
valid binary descriptor. -/
inductive DescEntry where
  | nullD
  | invalidD
  | validD (tag : Nat) (body : List Nat)
deriving DecidableEq, Repr

/-- `ts::TOT::addDescriptors`: split a descriptor list into regions and
other descriptors.  Null and invalid entries are skipped; a
local-time-offset descriptor contributes its decoded regions (nothing
when its decoding fails); every other descriptor is kept.  Relative order
is preserved on both sides. -/
def addDescriptors : List DescEntry → List Region × List WireDesc
  | [] => ([], [])
  | e :: rest =>
    let p := addDescriptors rest
    match e with
    | DescEntry.nullD => p
    | DescEntry.invalidD => p
    | DescEntry.validD tag body =>
      if tag ≠ DID_LOCAL_TIME_OFFSET then (p.1, ⟨tag, body⟩ :: p.2)
      else
        match ltoParseBody body with
        | some regs => (regs ++ p.1, p.2)
        | none => p

/-- Modelled from the spec: `getDescriptorListWithLength` — read the
16-bit length field (12 significant bits), fail when fewer bytes remain
than announced, and parse exactly that window as a descriptor loop. -/
def getDescriptorListWithLength (b : RBuf) : List WireDesc × RBuf :=
  let (hi, b1) := getUInt8 b
  let p := getUInt8 b1
  if p.2.err then ([], p.2)
  else
    let L := hi % 16 * 256 + p.1
    if L ≤ p.2.data.length then
      match descLoop (p.2.data.take L) with
      | some ds => (ds, ⟨p.2.data.drop L, false⟩)
      | none => ([], ⟨p.2.data, true⟩)
    else ([], ⟨p.2.data, true⟩)

/-- `ts::TOT::deserializePayload`: read the MJD time (JST → UTC under the
Japan profile), read the length-prefixed descriptor list and split it
with `addDescriptors`. -/
def deserializePayloadTOT (japan : Bool) (b : RBuf) : TOTRecord × RBuf :=
  let (t0, b1) := getFullMJD b
  let t := if japan then JSTToUTC t0 else t0
  let (dl, b2) := getDescriptorListWithLength b1
  let p := addDescriptors (dl.map (fun d => DescEntry.validD d.tag d.body))
  (⟨t, p.1, p.2⟩, b2)

/-- Decode a TOT payload, failing (as the framing layer does) when the
buffer flagged an error. -/
def totFromPayload (japan : Bool) (bs : List Nat) : Option TOTRecord :=
  let p := deserializePayloadTOT japan ⟨bs, false⟩
  if p.2.err = true then none else some p.1

/-! ### Validity predicates -/

/-- Field ranges of one region entry. -/
def ValidRegion (r : Region) : Prop :=
  r.country_code < 16777216 ∧ r.region_id < 64 ∧ r.time_offset < 65536 ∧
  r.next_change < 1099511627776 ∧ r.next_offset < 65536

/-- A descriptor whose tag and payload length fit their wire bytes. -/
def ValidWireDesc (d : WireDesc) : Prop := d.tag < 256 ∧ d.body.length < 256

/-- A valid TOT record: region fields in range, other descriptors valid and
not themselves local-time-offset descriptors, and the built descriptor
list fits the capacity and the 12-bit length prefix. -/
def ValidTOT (cap : Nat) (r : TOTRecord) : Prop :=
  (∀ x ∈ r.regions, ValidRegion x) ∧
  (∀ d ∈ r.descs, ValidWireDesc d ∧ d.tag ≠ DID_LOCAL_TIME_OFFSET) ∧
  descListSize (totDescriptorList r) ≤ min cap 4095

/-- A valid STT record: every field within its wire bit-width and the
descriptor list fits the single allowed section. -/
def ValidSTT (cap : Nat) (r : STTRecord) : Prop :=
  r.protocol_version < 256 ∧ r.system_time < 4294967296 ∧ r.GPS_UTC_offset < 256 ∧
  r.DS_day_of_month < 32 ∧ r.DS_hour < 256 ∧
  (∀ d ∈ r.descs, ValidWireDesc d) ∧ descListSize r.descs ≤ cap

/-! ### Buffer evaluation lemmas -/

theorem getUInt8_cons (x : Nat) (xs : List Nat) :
    getUInt8 ⟨x :: xs, false⟩ = (x, ⟨xs, false⟩) := rfl

theorem getUInt8_nil : getUInt8 ⟨[], false⟩ = (0, ⟨[], true⟩) := rfl

theorem descListSize_cons (d : WireDesc) (ds : List WireDesc) :
    descListSize (d :: ds) = 2 + d.body.length + descListSize ds := by
  simp [descListSize]

/-- When a descriptor list fits the capacity, the partial-fit writer keeps
all of it. -/
theorem fitDescs_of_fits (cap : Nat) (ds : List WireDesc) (h : descListSize ds ≤ cap) :
    fitDescs cap ds = ds := by
  induction ds generalizing cap with
  | nil => rfl
  | cons d rest ih =>
    rw [descListSize_cons] at h
    have h1 : 2 + d.body.length ≤ cap := by omega
    simp only [fitDescs, if_pos h1]
    rw [ih (cap - (2 + d.body.length)) (by omega)]

/-- Parsing the serialization of a valid descriptor list recovers it, for
any sufficient fuel. -/
theorem descLoopF_flatten (ds : List WireDesc) (fuel : Nat)
    (hv : ∀ d ∈ ds, ValidWireDesc d)
    (hf : ((ds.map descBytes).flatten).length ≤ fuel) :
    descLoopF fuel ((ds.map descBytes).flatten) = some ds := by
  induction ds generalizing fuel with
  | nil => cases fuel <;> rfl
  | cons d rest ih =>
    have hd : ValidWireDesc d := hv d (by simp)
    have hlen : ((descBytes d :: (rest.map descBytes)).flatten).length
        = 2 + d.body.length + ((rest.map descBytes).flatten).length := by
      simp [descBytes]; omega
    rw [List.map_cons] at hf ⊢
    rw [hlen] at hf
    cases fuel with
    | zero => omega
    | succ f =>
      have hbody : d.body.length % 256 = d.body.length := Nat.mod_eq_of_lt hd.2
      have htag : d.tag % 256 = d.tag := Nat.mod_eq_of_lt hd.1
      show descLoopF (f + 1) ((descBytes d ++ (rest.map descBytes).flatten)) = _
      simp only [descBytes, List.cons_append]
      rw [descLoopF]
      simp only [hbody, htag]
      have hle : d.body.length ≤ (d.body ++ (rest.map descBytes).flatten).length := by
        simp
      rw [if_pos hle]
      rw [List.take_left' rfl, List.drop_left' rfl]
      rw [ih f (fun x hx => hv x (by simp [hx])) (by omega)]

/-- Parsing the serialization of a valid descriptor list recovers it. -/
theorem descLoop_flatten (ds : List WireDesc) (hv : ∀ d ∈ ds, ValidWireDesc d) :
    descLoop ((ds.map descBytes).flatten) = some ds :=
  descLoopF_flatten ds _ hv le_rfl

/-! ### MJD lemmas -/

theorem fromBCD_toBCD : ∀ n < 100, fromBCD (toBCD n) = n := by decide

/-- Reading back the 5-byte MJD field written for a representable time
yields the time again and consumes exactly five bytes. -/
theorem getFullMJD_put (t : Int) (rest : List Nat) (h : MJDValid t) :
    getFullMJD ⟨putFullMJD t ++ rest, false⟩ = (t, ⟨rest, false⟩) := by
  obtain ⟨h1, h2⟩ := h
  simp only [secondsPerDay, mjdUnixEpochDays] at h1 h2
  simp only [putFullMJD, secondsPerDay, mjdUnixEpochDays]
  set s := (t + ((40587 * 86400 : Nat) : Int)).toNat with hsdef
  have hs : (s : Int) = t + ((40587 * 86400 : Nat) : Int) := Int.toNat_of_nonneg h1
  have hlt : s < 65536 * 86400 := by omega
  have hb2 : s % 86400 / 3600 < 100 := by omega
  have hb3 : s % 86400 % 3600 / 60 < 100 := by omega
  have hb4 : s % 86400 % 60 < 100 := by omega
  simp only [List.cons_append, List.nil_append, getFullMJD, getUInt8_cons]
  simp only [Prod.mk.injEq, and_true]
  simp only [mjdValue, secondsPerDay, mjdUnixEpochDays]
  rw [fromBCD_toBCD _ hb2, fromBCD_toBCD _ hb3, fromBCD_toBCD _ hb4]
  omega

/-! ### Chunking lemmas -/

/-- Flattening the chunks rebuilds the region list: the chunk/flatten
duality of the TOT codec. -/
theorem chunkLoop_flatten (l : List Region) : ∀ acc : List Region,
    (chunkLoop l acc).flatten = acc ++ l := by
  induction l with
  | nil =>
    intro acc
    by_cases h : acc = [] <;> simp [chunkLoop, h]
  | cons r rest ih =>
    intro acc
    by_cases h : MAX_REGION ≤ acc.length + 1
    · simp [chunkLoop, h, ih]
    · simp [chunkLoop, h, ih]

/-- Every chunk produced by the serialization loop holds at most
`MAX_REGION` regions (given the loop invariant on the accumulator). -/
theorem chunkLoop_chunk_le (l : List Region) : ∀ acc : List Region,
    acc.length < MAX_REGION → ∀ c ∈ chunkLoop l acc, c.length ≤ MAX_REGION := by
  induction l with
  | nil =>
    intro acc hacc c hc
    by_cases h : acc = []
    · simp [chunkLoop, h] at hc
    · simp [chunkLoop, h] at hc
      subst hc; omega
  | cons r rest ih =>
    intro acc hacc c hc
    by_cases h : MAX_REGION ≤ (acc ++ [r]).length
    · simp only [chunkLoop, if_pos h] at hc
      rcases List.mem_cons.mp hc with h1 | h1
      · subst h1; simp; simp at h; omega
      · exact ih [] (by simp [MAX_REGION]) c h1
    · simp only [chunkLoop, if_neg h] at hc
      exact ih (acc ++ [r]) (by simp at h ⊢; omega) c hc

/-! ### Region and local-time-offset descriptor lemmas -/

/-- Decoding the 13-byte wire form of a valid region recovers it. -/
theorem regionOfBytes_regionBytes (r : Region) (h : ValidRegion r) :
    regionOfBytes (regionBytes r) = r := by
  obtain ⟨cc, rid, pol, toff, nc, no⟩ := r
  obtain ⟨h1, h2, h3, h4, h5⟩ := h
  simp only at h1 h2 h3 h4 h5
  cases pol <;> simp [regionOfBytes, regionBytes, Region.mk.injEq] <;> omega

/-- Parsing the payload built from a valid region list recovers the list,
for any sufficient fuel. -/
theorem ltoParseF_ltoBody (rs : List Region) (fuel : Nat)
    (hv : ∀ r ∈ rs, ValidRegion r) (hf : (ltoBody rs).length ≤ fuel) :
    ltoParseF fuel (ltoBody rs) = some rs := by
  induction rs generalizing fuel with
  | nil => cases fuel <;> rfl
  | cons r rest ih =>
    have hr : ValidRegion r := hv r (by simp)
    have hshape : ltoBody (r :: rest) = regionBytes r ++ ltoBody rest := by
      simp [ltoBody]
    have hlen13 : (regionBytes r).length = 13 := by simp [regionBytes]
    have hlen : (ltoBody (r :: rest)).length = 13 + (ltoBody rest).length := by
      simp [hshape, hlen13]
    cases fuel with
    | zero => omega
    | succ f =>
      rw [hshape]
      obtain ⟨a0, tl, htl, htl12⟩ :
          ∃ a0 tl, regionBytes r = a0 :: tl ∧ tl.length = 12 := by
        refine ⟨_, _, rfl, ?_⟩; simp [regionBytes]
      rw [htl, List.cons_append, ltoParseF]
      have hge : 12 ≤ (tl ++ ltoBody rest).length := by simp [htl12]
      rw [if_pos hge]
      rw [List.take_left' htl12, List.drop_left' htl12]
      have hrec : ltoParseF f (ltoBody rest) = some rest :=
        ih f (fun x hx => hv x (List.mem_cons_of_mem _ hx)) (by omega)
      rw [hrec, ← htl, regionOfBytes_regionBytes r hr]

/-- Parsing the payload built from a valid region list recovers the list. -/
theorem ltoParseBody_ltoBody (rs : List Region) (hv : ∀ r ∈ rs, ValidRegion r) :
    ltoParseBody (ltoBody rs) = some rs :=
  ltoParseF_ltoBody rs _ hv le_rfl

/-! ### addDescriptors lemmas -/

/-- Splitting a concatenation of descriptor-list entries concatenates the
split results componentwise: relative order survives on both sides. -/
theorem addDescriptors_append (xs ys : List DescEntry) :
    addDescriptors (xs ++ ys) =
      ((addDescriptors xs).1 ++ (addDescriptors ys).1,
       (addDescriptors xs).2 ++ (addDescriptors ys).2) := by
  induction xs with
  | nil => simp [addDescriptors]
  | cons e rest ih =>
    cases e with
    | nullD => simpa [addDescriptors] using ih
    | invalidD => simpa [addDescriptors] using ih
    | validD tag body =>
      by_cases h : tag = DID_LOCAL_TIME_OFFSET
      · subst h
        cases hp : ltoParseBody body <;> simp [addDescriptors, hp, ih]
      · simp [addDescriptors, h, ih]

/-- A list of local-time-offset descriptors built from valid region chunks
splits into the concatenated regions and no other descriptors. -/
theorem addDescriptors_ltoChunks (cs : List (List Region))
    (hv : ∀ c ∈ cs, ∀ r ∈ c, ValidRegion r) :
    addDescriptors (cs.map (fun c => DescEntry.validD DID_LOCAL_TIME_OFFSET (ltoBody c)))
      = (cs.flatten, []) := by
  induction cs with
  | nil => rfl
  | cons c rest ih =>
    have hc : ltoParseBody (ltoBody c) = some c := ltoParseBody_ltoBody c (hv c (by simp))
    have hr := ih (fun x hx => hv x (by simp [hx]))
    simp [addDescriptors, hc, hr]

/-- A list of descriptors none of which is a local-time-offset descriptor
splits into no regions and the untouched descriptor list. -/
theorem addDescriptors_others (ds : List WireDesc)
    (h : ∀ d ∈ ds, d.tag ≠ DID_LOCAL_TIME_OFFSET) :
    addDescriptors (ds.map (fun d => DescEntry.validD d.tag d.body)) = ([], ds) := by
  induction ds with
  | nil => rfl
  | cons d rest ih =>
    have hd := h d (by simp)
    have hr := ih (fun x hx => h x (by simp [hx]))
    simp [addDescriptors, hd, hr]

/-! ### TOT round-trip -/

theorem descBytes_flatten_length (ds : List WireDesc) :
    ((ds.map descBytes).flatten).length = descListSize ds := by
  induction ds with
  | nil => rfl
  | cons d rest ih =>
    rw [descListSize_cons, List.map_cons, List.flatten_cons, List.length_append, ih]
    simp [descBytes]
    omega

theorem ltoBody_length (c : List Region) : (ltoBody c).length = 13 * c.length := by
  induction c with
  | nil => rfl
  | cons r rest ih =>
    have h : ltoBody (r :: rest) = regionBytes r ++ ltoBody rest := by simp [ltoBody]
    rw [h, List.length_append, ih]
    simp [regionBytes]
    omega

/-- Every region inside a chunk of the serialization loop comes from the
input region list. -/
theorem chunkLoop_mem_valid (l : List Region) (hv : ∀ r ∈ l, ValidRegion r)
    (c : List Region) (hc : c ∈ chunkLoop l []) : ∀ r ∈ c, ValidRegion r := by
  intro r hr
  have hm : r ∈ (chunkLoop l []).flatten := List.mem_flatten.mpr ⟨c, hc, hr⟩
  rw [chunkLoop_flatten] at hm
  exact hv r (by simpa using hm)

/-- Every descriptor built by the TOT serializer is wire-valid. -/
theorem totDescriptorList_valid (cap : Nat) (r : TOTRecord) (h : ValidTOT cap r) :
    ∀ d ∈ totDescriptorList r, ValidWireDesc d := by
  intro d hd
  rw [totDescriptorList, List.mem_append] at hd
  rcases hd with hd | hd
  · obtain ⟨c, hc, rfl⟩ := List.mem_map.mp hd
    refine ⟨by norm_num [DID_LOCAL_TIME_OFFSET], ?_⟩
    have hle := chunkLoop_chunk_le r.regions [] (by simp [MAX_REGION]) c hc
    have hlen := ltoBody_length c
    simp only [MAX_REGION] at hle
    simp only
    omega
  · exact (h.2.1 d hd).1

/-- Reading back a length-prefixed descriptor list that fits the capacity
recovers exactly the list and consumes exactly its bytes. -/
theorem getDescriptorListWithLength_put (cap : Nat) (ds : List WireDesc) (rest : List Nat)
    (hv : ∀ d ∈ ds, ValidWireDesc d) (hfit : descListSize ds ≤ min cap 4095) :
    getDescriptorListWithLength ⟨putPartialWithLength cap ds ++ rest, false⟩
      = (ds, ⟨rest, false⟩) := by
  rw [putPartialWithLength, fitDescs_of_fits _ _ hfit]
  set body := (ds.map descBytes).flatten with hbody
  have hblen : body.length = descListSize ds := descBytes_flatten_length ds
  have hb4095 : body.length ≤ 4095 := by omega
  simp only [List.cons_append, getDescriptorListWithLength, getUInt8_cons]
  have hhi : (240 + body.length / 256 % 16) % 16 = body.length / 256 := by omega
  have hL : (240 + body.length / 256 % 16) % 16 * 256 + body.length % 256 = body.length := by
    omega
  simp only [hL]
  rw [if_pos (by simp : body.length ≤ (body ++ rest).length)]
  rw [List.take_left' rfl, List.drop_left' rfl]
  rw [hbody, descLoop_flatten ds hv]
  simp

/-- Splitting the descriptor list built by the TOT serializer recovers the
flat region list and the other descriptors. -/
theorem addDescriptors_totDescriptorList (cap : Nat) (r : TOTRecord) (hv : ValidTOT cap r) :
    addDescriptors ((totDescriptorList r).map (fun d => DescEntry.validD d.tag d.body))
      = (r.regions, r.descs) := by
  obtain ⟨hreg, hoth, _⟩ := hv
  rw [totDescriptorList, List.map_append, addDescriptors_append, List.map_map]
  have h1 : addDescriptors ((chunkLoop r.regions []).map
      ((fun d : WireDesc => DescEntry.validD d.tag d.body) ∘
        (fun c : List Region => (⟨DID_LOCAL_TIME_OFFSET, ltoBody c⟩ : WireDesc)))) =
      ((chunkLoop r.regions []).flatten, []) := by
    have h := addDescriptors_ltoChunks (chunkLoop r.regions [])
      (fun c hc => chunkLoop_mem_valid r.regions hreg c hc)
    simpa using h
  have h2 := addDescriptors_others r.descs (fun d hd => (hoth d hd).2)
  rw [h1, h2, chunkLoop_flatten]
  simp

/-- The full TOT round-trip: decoding the serialization of a valid record
reproduces its UTC time, its flat region list and its other descriptors,
for either standards profile. -/
theorem tot_roundtrip_master (japan : Bool) (cap : Nat) (r : TOTRecord)
    (hv : ValidTOT cap r)
    (ht : MJDValid (if japan then UTCToJST r.utc_time else r.utc_time)) :
    totFromPayload japan (serializePayloadTOT japan cap r)
      = some ⟨r.utc_time, r.regions, r.descs⟩ := by
  have hvd := totDescriptorList_valid cap r hv
  have hmjd := getFullMJD_put (if japan then UTCToJST r.utc_time else r.utc_time)
    (putPartialWithLength cap (totDescriptorList r)) ht
  have hdl := getDescriptorListWithLength_put cap (totDescriptorList r) [] hvd hv.2.2
  rw [List.append_nil] at hdl
  have hsplit := addDescriptors_totDescriptorList cap r hv
  rw [totFromPayload, serializePayloadTOT, deserializePayloadTOT]
  simp only [hmjd, hdl, hsplit]
  cases japan <;> simp [JSTToUTC, UTCToJST]

/-! ### STT round-trip -/

theorem getDescriptorList_flatten (ds : List WireDesc) (hv : ∀ d ∈ ds, ValidWireDesc d) :
    getDescriptorList ⟨(ds.map descBytes).flatten, false⟩ = (ds, ⟨[], false⟩) := by
  rw [getDescriptorList]
  simp [descLoop_flatten ds hv]

/-- The full STT round-trip: decoding the serialization of a valid record
whose descriptor list fits the section reproduces the record exactly. -/
theorem stt_roundtrip_master (cap : Nat) (r : STTRecord) (hv : ValidSTT cap r) :
    sttFromSection (serializePayloadSTT cap r) = some r := by
  obtain ⟨h1, h2, h3, h4, h5, h6, h7⟩ := hv
  obtain ⟨pv, st, gps, s, day, hour, ds⟩ := r
  simp only at h1 h2 h3 h4 h5 h6 h7
  rw [serializePayloadSTT]
  simp only
  rw [fitDescs_of_fits cap ds h7]
  rw [sttFromSection]
  simp only [deserializePayloadSTT, getUInt32, getUInt8_cons,
    getDescriptorList_flatten ds h6]
  have hpv : pv % 256 = pv := Nat.mod_eq_of_lt h1
  have hgps : gps % 256 = gps := Nat.mod_eq_of_lt h3
  have hhour : hour % 256 = hour := Nat.mod_eq_of_lt h5
  have hst : ((st / 16777216 % 256 * 256 + st / 65536 % 256) * 256 + st / 256 % 256) * 256
      + st % 256 = st := by omega
  have hday : ((if s then 128 else 0) + 96 + day % 32) % 32 = day := by
    cases s <;> simp <;> omega
  have hbit : ((if s then 128 else 0) + 96 + day % 32) / 128 % 2 = if s then 1 else 0 := by
    cases s <;> simp <;> omega
  simp only [hpv, hgps, hhour, hst, hday, hbit]
  have hbool : ((if s then (1:Nat) else 0) == 1) = s := by cases s <;> rfl
  simp [hbool]

/-! ### Claim theorems -/

/-- A default region used in concrete instances. -/
def rdef : Region := ⟨0, 0, false, 0, 0, 0⟩

/-- C1: TOT round-trip — decoding the encoding of a valid TOT record
yields a record with the same `utc_time` and the same flat `regions`
sequence in order, regardless of the chunk boundaries the encoder used
(they are not preserved, only the flattened order). -/
theorem claim_C1_tot_roundtrip (cap : Nat) (r : TOTRecord)
    (hv : ValidTOT cap r) (ht : MJDValid r.utc_time) :
    (totFromPayload false (serializePayloadTOT false cap r)).map TOTRecord.utc_time
        = some r.utc_time ∧
    (totFromPayload false (serializePayloadTOT false cap r)).map TOTRecord.regions
        = some r.regions := by
  rw [tot_roundtrip_master false cap r hv (by simpa using ht)]
  simp

theorem claim_C1_witness :
    (totFromPayload false (serializePayloadTOT false 4095 ⟨0, [rdef], []⟩)).map TOTRecord.regions
      = some [rdef] :=
  (claim_C1_tot_roundtrip 4095 ⟨0, [rdef], []⟩
    (by simp only [ValidTOT, ValidRegion, ValidWireDesc]; decide)
    (by simp only [MJDValid]; decide)).2

/-- C2: TOT encode chunking — the serializer partitions the regions into
consecutive chunks of at most 19, emits one local-time-offset descriptor
per chunk in order followed by the other descriptors unchanged, and 45
regions produce exactly 3 chunks of sizes 19, 19 and 7. -/
theorem claim_C2_tot_chunking (rs : List Region) (r : TOTRecord) :
    (∀ c ∈ chunkLoop rs [], c.length ≤ MAX_REGION) ∧
    (chunkLoop rs []).flatten = rs ∧
    totDescriptorList r = (chunkLoop r.regions []).map
      (fun c => (⟨DID_LOCAL_TIME_OFFSET, ltoBody c⟩ : WireDesc)) ++ r.descs ∧
    (chunkLoop (List.replicate 45 rdef) []).map List.length = [19, 19, 7] := by
  refine ⟨chunkLoop_chunk_le rs [] (by simp [MAX_REGION]), ?_, rfl, by decide⟩
  simpa using chunkLoop_flatten rs []

theorem claim_C2_witness :
    (chunkLoop (List.replicate 45 rdef) []).map List.length = [19, 19, 7] :=
  (claim_C2_tot_chunking [] ⟨0, [], []⟩).2.2.2

/-- C3: STT round-trip — decoding the encoding of a valid STT record whose
descriptor list fits one section restores every field and the descriptor
list exactly. -/
theorem claim_C3_stt_roundtrip (cap : Nat) (r : STTRecord) (hv : ValidSTT cap r) :
    sttFromSection (serializePayloadSTT cap r) = some r :=
  stt_roundtrip_master cap r hv

theorem claim_C3_witness :
    sttFromSection (serializePayloadSTT 100 ⟨1, 2, 3, true, 31, 23, []⟩)
      = some ⟨1, 2, 3, true, 31, 23, []⟩ :=
  claim_C3_stt_roundtrip 100 ⟨1, 2, 3, true, 31, 23, []⟩
    (by simp only [ValidSTT, ValidWireDesc]; decide)

/-- C4: GPS-to-UTC conversion — total on the whole 32-bit/8-bit domain,
the sentinel epoch for `system_time = 0`, and otherwise
`system_time + 315964800 − GPS_UTC_offset` seconds since the Unix epoch
(never negative). -/
theorem claim_C4_gps_to_utc (r : STTRecord)
    (h1 : r.system_time < 4294967296) (h2 : r.GPS_UTC_offset < 256) :
    (r.system_time = 0 → utcTimeSTT r = TsTime.epoch) ∧
    (r.system_time ≠ 0 →
      utcTimeSTT r
        = TsTime.fromUnix ((r.system_time : Int) + 315964800 - (r.GPS_UTC_offset : Int)) ∧
      0 ≤ (r.system_time : Int) + 315964800 - (r.GPS_UTC_offset : Int)) := by
  refine ⟨fun h => by simp [utcTimeSTT, h],
    fun h => ⟨by simp [utcTimeSTT, h, unixEpochToGPS], by omega⟩⟩

theorem claim_C4_witness :
    utcTimeSTT ⟨0, 1000000000, 18, false, 0, 0, []⟩ = TsTime.fromUnix 1315964782 := by
  have h := (claim_C4_gps_to_utc ⟨0, 1000000000, 18, false, 0, 0, []⟩
    (by decide) (by decide)).2 (by decide)
  rw [h.1]
  norm_num

/-- C5: Japan-profile round-trip — with the Japan profile active the
encoder writes JST and the decoder converts back, so encode-then-decode
returns the identical UTC instant. -/
theorem claim_C5_japan_roundtrip (cap : Nat) (r : TOTRecord)
    (hv : ValidTOT cap r) (ht : MJDValid (UTCToJST r.utc_time)) :
    (totFromPayload true (serializePayloadTOT true cap r)).map TOTRecord.utc_time
      = some r.utc_time := by
  rw [tot_roundtrip_master true cap r hv (by simpa using ht)]
  simp

theorem claim_C5_witness :
    (totFromPayload true (serializePayloadTOT true 4095 ⟨0, [], []⟩)).map TOTRecord.utc_time
      = some 0 :=
  claim_C5_japan_roundtrip 4095 ⟨0, [], []⟩
    (by simp only [ValidTOT, ValidRegion, ValidWireDesc]; decide)
    (by simp only [MJDValid, UTCToJST]; decide)

/-- The TOT record of the capacity counterexample: 400 regions build 22
local-time-offset descriptors (21 of 19 regions and one of 1), more than
the 12-bit descriptor-loop length can carry. -/
def totBig : TOTRecord := ⟨0, List.replicate 400 rdef, []⟩

set_option maxRecDepth 100000 in
/-- C6 counterexample: with 400 regions the serializer builds 22
local-time-offset descriptors, but the partial-fit writer emits only 16 of
them even with ample buffer capacity (the 12-bit length prefix caps the
loop at 4095 bytes); the emitted descriptors carry 3952 = 304 × 13 bytes
of regions, against the 400 regions of the record: descriptors and
regions ARE lost at TOT encode time. -/
theorem claim_C6_counterexample :
    (fitDescs (min 1000000 4095) (totDescriptorList totBig)).length = 16 ∧
    (totDescriptorList totBig).length = 22 ∧
    ((fitDescs (min 1000000 4095) (totDescriptorList totBig)).map
      (fun d => d.body.length)).sum = 304 * 13 ∧
    totBig.regions.length = 400 := by
  refine ⟨by rfl, by rfl, by rfl, by rfl⟩

/-- C6 amended: TOT encoding never signals an error (it is a total
function), and no descriptor or region is lost whenever the built
descriptor list fits both the section capacity and the 12-bit length
prefix; beyond that bound trailing whole descriptors are silently
dropped. -/
theorem claim_C6_amended (cap : Nat) (r : TOTRecord)
    (h : descListSize (totDescriptorList r) ≤ min cap 4095) :
    fitDescs (min cap 4095) (totDescriptorList r) = totDescriptorList r :=
  fitDescs_of_fits _ _ h

theorem claim_C6_amended_witness :
    fitDescs (min 4095 4095) (totDescriptorList ⟨0, [rdef], []⟩)
      = totDescriptorList ⟨0, [rdef], []⟩ :=
  claim_C6_amended 4095 ⟨0, [rdef], []⟩ (by decide)

/-- C7: truncation — an STT payload shorter than 8 bytes and a TOT payload
shorter than 5 bytes both fail to decode (the buffer error flag is raised
and no record is produced). -/
theorem claim_C7_truncated (bs : List Nat) :
    (bs.length < 8 → sttFromSection bs = none) ∧
    (∀ japan, bs.length < 5 → totFromPayload japan bs = none) := by
  constructor
  · intro h
    match bs, h with
    | [], _ => rfl
    | [b0], _ => rfl
    | [b0, b1], _ => rfl
    | [b0, b1, b2], _ => rfl
    | [b0, b1, b2, b3], _ => rfl
    | [b0, b1, b2, b3, b4], _ => rfl
    | [b0, b1, b2, b3, b4, b5], _ => rfl
    | [b0, b1, b2, b3, b4, b5, b6], _ => rfl
    | b0 :: b1 :: b2 :: b3 :: b4 :: b5 :: b6 :: b7 :: rest, h =>
      simp only [List.length_cons] at h
      omega
  · intro japan h
    match bs, h with
    | [], _ => rfl
    | [b0], _ => rfl
    | [b0, b1], _ => rfl
    | [b0, b1, b2], _ => rfl
    | [b0, b1, b2, b3], _ => rfl
    | b0 :: b1 :: b2 :: b3 :: b4 :: rest, h =>
      simp only [List.length_cons] at h
      omega

theorem claim_C7_witness :
    sttFromSection [] = none ∧ totFromPayload false [1, 2, 3] = none :=
  ⟨(claim_C7_truncated []).1 (by decide), (claim_C7_truncated [1, 2, 3]).2 false (by decide)⟩

/-- C8: reserved-bits convention and field order — the serialized STT
payload is exactly the 8 header bytes in the documented order followed by
the descriptor bytes, and in the DST byte (index 6) the two reserved bits
between the DST-status bit and the 5-bit day-of-month are both 1. -/
theorem claim_C8_stt_reserved_bits (cap : Nat) (r : STTRecord) :
    serializePayloadSTT cap r =
      r.protocol_version % 256 ::
      r.system_time / 16777216 % 256 :: r.system_time / 65536 % 256 ::
      r.system_time / 256 % 256 :: r.system_time % 256 ::
      r.GPS_UTC_offset % 256 ::
      ((if r.DS_status then 128 else 0) + 96 + r.DS_day_of_month % 32) ::
      r.DS_hour % 256 ::
      ((fitDescs cap r.descs).map descBytes).flatten ∧
    (serializePayloadSTT cap r).getD 6 0 / 32 % 2 = 1 ∧
    (serializePayloadSTT cap r).getD 6 0 / 64 % 2 = 1 := by
  refine ⟨rfl, ?_, ?_⟩ <;>
    · simp only [serializePayloadSTT, List.getD_cons_succ, List.getD_cons_zero]
      cases r.DS_status <;> simp <;> omega

/-- C9: STT trailing-byte invalidation — a record decoded successfully by
the Section constructor left the buffer with no error and no unconsumed
bytes: the codec itself rejects trailing garbage. -/
theorem claim_C9_stt_consumes_all (bs : List Nat) (r : STTRecord)
    (h : sttFromSection bs = some r) :
    (deserializePayloadSTT ⟨bs, false⟩).2.err = false ∧
    (deserializePayloadSTT ⟨bs, false⟩).2.data = [] := by
  rw [sttFromSection] at h
  by_cases he : (deserializePayloadSTT ⟨bs, false⟩).2.err = true ∨
      (deserializePayloadSTT ⟨bs, false⟩).2.data ≠ []
  · rw [if_pos he] at h
    cases h
  · push_neg at he
    exact ⟨by simpa using he.1, he.2⟩

theorem claim_C9_witness :
    (deserializePayloadSTT ⟨[0, 0, 0, 0, 0, 0, 96, 0], false⟩).2.err = false ∧
    (deserializePayloadSTT ⟨[0, 0, 0, 0, 0, 0, 96, 0], false⟩).2.data = [] :=
  claim_C9_stt_consumes_all [0, 0, 0, 0, 0, 0, 96, 0] ⟨0, 0, 0, false, 0, 0, []⟩ (by rfl)

/-- C10: silent skipping in `addDescriptors` — null and invalid entries are
skipped, a local-time-offset descriptor whose decoding fails contributes
zero regions, and splitting distributes over concatenation so the
surviving descriptors and regions keep their relative order. -/
theorem claim_C10_addDescriptors_skips (es : List DescEntry) (body : List Nat) :
    addDescriptors (DescEntry.nullD :: es) = addDescriptors es ∧
    addDescriptors (DescEntry.invalidD :: es) = addDescriptors es ∧
    (ltoParseBody body = none →
      addDescriptors (DescEntry.validD DID_LOCAL_TIME_OFFSET body :: es) = addDescriptors es) ∧
    (∀ xs, addDescriptors (xs ++ es)
      = ((addDescriptors xs).1 ++ (addDescriptors es).1,
         (addDescriptors xs).2 ++ (addDescriptors es).2)) := by
  refine ⟨rfl, rfl, fun hp => ?_, fun xs => addDescriptors_append xs es⟩
  simp [addDescriptors, hp]

theorem claim_C10_witness :
    addDescriptors [DescEntry.validD DID_LOCAL_TIME_OFFSET [0]] = addDescriptors [] :=
  (claim_C10_addDescriptors_skips [] [0]).2.2.1 (by rfl)
